import Mathlib

/-!
Verification development for the PUB-socket fan-out engine (`src/pub.rs`).

The embedding is shallow: byte payloads are lists of naturals, the peer
registry (a `DashMap<PeerIdentity, Subscriber>`) is an association list
iterated in insertion order, and every Rust panic site (`Option::unwrap`
on an absent peer, slice indexing out of range, `todo!()`) is modelled by
returning `Option.none`.  Effectful pieces that are irrelevant to the
claims (logging via `dbg!`/`log`, the framed transport channel, task
spawning) are either dropped or abstracted: the outcome of the
non-blocking `try_send` on a peer's outbound queue is an oracle parameter
`PeerIdentity → SendResult`.
-/

/-- Byte strings (topic filters, message payloads) as lists of naturals. -/
abbrev Bytes := List Nat

/-- Peer identity: an opaque comparable key, modelled as a natural. -/
abbrev PeerIdentity := Nat

/-- Per-peer state held in the registry.  Of the Rust `Subscriber` struct only
the `subscriptions` vector is data; `send_queue` is abstracted by the send
oracle and the oneshot stop handle has no pure content. -/
structure Subscriber where
  subscriptions : List Bytes
deriving DecidableEq

/-- Decoded frames handed to the backend: `Message::Message` carries a payload;
every other frame kind (`Greeting`, `Command`, multipart) is ignored by this
backend and is collapsed into one constructor. -/
inductive Message where
  | message (data : Bytes)
  | other
deriving DecidableEq

/-- The subscriber registry: `DashMap<PeerIdentity, Subscriber>` as an
association list in iteration order, keys unique in any reachable state. -/
abbrev Registry := List (PeerIdentity × Subscriber)

/-- Lookup of the first entry with the given key (`DashMap::get`). -/
def regLookup : Registry → PeerIdentity → Option Subscriber
  | [], _ => none
  | (q, s) :: rest, p => if q = p then some s else regLookup rest p

/-- Replace the subscription list of the first entry with the given key,
modelling an in-place mutation through `DashMap::get_mut`. -/
def regSetSubs : Registry → PeerIdentity → List Bytes → Registry
  | [], _, _ => []
  | (q, s) :: rest, p, subs =>
    if q = p then (q, Subscriber.mk subs) :: rest else (q, s) :: regSetSubs rest p subs

/-- The `DashMap::insert` of `peer_connected`: overwrite the existing entry for
the key if present, otherwise append the new entry. -/
def regInsert : Registry → PeerIdentity → Subscriber → Registry
  | [], p, s => [(p, s)]
  | (q, t) :: rest, p, s =>
    if q = p then (p, s) :: rest else (q, t) :: regInsert rest p s

/-- The `DashMap::remove` used by `peer_disconnected`: drop the entry with the
given key (the first one, which is the only one since keys are unique). -/
def regRemove : Registry → PeerIdentity → Registry
  | [], _ => []
  | (q, s) :: rest, p => if q = p then rest else (q, s) :: regRemove rest p

/-- Uniqueness of registry keys, an invariant of the `DashMap`. -/
abbrev keysNodup (reg : Registry) : Prop := (reg.map Prod.fst).Nodup

/-- The enumerate-and-break loop of the unsubscribe arm of
`message_received`: index of the first subscription equal to the topic. -/
def findSubIndex (topic : Bytes) : List Bytes → Option Nat
  | [] => none
  | s :: rest =>
    if topic = s then some 0
    else
      match findSubIndex topic rest with
      | none => none
      | some i => some (i + 1)

/-- The control-frame handler `PubSocketBackend::message_received`.  Non-message
frames and empty payloads return early; tag byte `1` appends the topic to the
peer's subscription list, tag `0` removes the first equal entry, any other tag
is ignored.  The `self.subscribers.get_mut(&peer_id).unwrap()` calls panic when
the peer is absent from the registry, modelled by `none`. -/
def message_received (reg : Registry) (peer_id : PeerIdentity) (msg : Message) :
    Option Registry :=
  match msg with
  | Message.other => some reg
  | Message.message data =>
    match data with
    | [] => some reg
    | tag :: topic =>
      if tag = 1 then
        match regLookup reg peer_id with
        | none => none
        | some sub => some (regSetSubs reg peer_id (sub.subscriptions ++ [topic]))
      else if tag = 0 then
        match regLookup reg peer_id with
        | none => none
        | some sub =>
          match findSubIndex topic sub.subscriptions with
          | none => some reg
          | some idx =>
            some (regSetSubs reg peer_id (sub.subscriptions.eraseIdx idx))
      else some reg

/-- Sequential processing of a peer's control frames by its receive loop,
propagating a panic of any step. -/
def processMessages : Registry → PeerIdentity → List Message → Option Registry
  | reg, _, [] => some reg
  | reg, p, m :: ms =>
    match message_received reg p m with
    | none => none
    | some r => processMessages r p ms

/-- Remove the first list entry equal to the topic, keeping the rest;
identity when no entry is equal.  Specification-level description of
unsubscribe used by the simulation of claim C4. -/
def removeFirstEq (topic : Bytes) : List Bytes → List Bytes
  | [] => []
  | s :: rest => if s = topic then rest else s :: removeFirstEq topic rest

/-- One step of the claimed simulation of the subscription protocol, written
from the spec's words: tag `1` appends the topic unconditionally, tag `0`
removes the first byte-equal entry, any other tag or empty payload leaves the
list unchanged. -/
def simStep (subs : List Bytes) (payload : Bytes) : List Bytes :=
  match payload with
  | [] => subs
  | tag :: topic =>
    if tag = 1 then subs ++ [topic]
    else if tag = 0 then removeFirstEq topic subs
    else subs

/-- Outcome of one non-blocking `try_send` on a peer's outbound queue.
`ioErr true` is a `CodecError::Io` error of kind `BrokenPipe` (peer
unreachable), `ioErr false` an IO error of any other kind, `otherErr` any
`ZmqError` that is not a codec IO error. -/
inductive SendResult where
  | ok
  | ioErr (brokenPipe : Bool)
  | otherErr
deriving DecidableEq

/-- The per-peer inner loop of `PubSocket::send`: scan the subscription list in
order; on the first filter that matches, attempt one delivery and stop.  The
Rust match test is `sub_filter.as_slice() == &message.data[0..sub_filter.len()]`,
whose slice panics (`none`) when the filter is longer than the payload; a
delivery outcome of `otherErr` hits `todo!()` and also panics.  Returns the
number of delivery attempts made and whether the peer was recorded dead. -/
def scanPeer (data : Bytes) (oc : SendResult) : List Bytes → Option (Nat × Bool)
  | [] => some (0, false)
  | f :: rest =>
    if f.length ≤ data.length then
      if f = data.take f.length then
        match oc with
        | SendResult.ok => some (1, false)
        | SendResult.ioErr b => some (1, b)
        | SendResult.otherErr => none
      else scanPeer data oc rest
    else none

/-- The outer loop of `PubSocket::send` over the registry snapshot: per peer,
run `scanPeer`; collect (in iteration order) the peers that received a delivery
attempt and the peers recorded dead (`dead_peers`). -/
def sendScan (data : Bytes) (oc : PeerIdentity → SendResult) :
    Registry → Option (List PeerIdentity × List PeerIdentity)
  | [] => some ([], [])
  | (p, sub) :: rest =>
    match scanPeer data (oc p) sub.subscriptions with
    | none => none
    | some (n, dead) =>
      match sendScan data oc rest with
      | none => none
      | some (atts, deads) =>
        some (if 0 < n then p :: atts else atts, if dead then p :: deads else deads)

/-- Result of a completed `PubSocket::send` call: the registry after removal of
dead peers, the peers that received a delivery attempt, and the recorded dead
peers.  The Rust function additionally returns `Ok(())` whenever it completes. -/
structure SendOutcome where
  registry : Registry
  attempted : List PeerIdentity
  dead : List PeerIdentity
deriving DecidableEq

/-- The broadcast `PubSocket::send`: scan all peers against the payload, then
remove every peer recorded dead by calling `peer_disconnected` on it; `none`
models a panic during the scan. -/
def send (reg : Registry) (data : Bytes) (oc : PeerIdentity → SendResult) :
    Option SendOutcome :=
  match sendScan data oc reg with
  | none => none
  | some (atts, deads) => some (SendOutcome.mk (deads.foldl regRemove reg) atts deads)

/-- The socket events this backend can report on an attached monitor. -/
inductive SocketEvent where
  | connected (p : PeerIdentity)
  | disconnected (p : PeerIdentity)
deriving DecidableEq

/-- The backend state: the subscriber registry together with the optional
monitor channel, modelled as the queue of events sent on it so far (`none`
when no monitor is attached). -/
structure PubSocketBackend where
  subscribers : Registry
  socket_monitor : Option (List SocketEvent)
deriving DecidableEq

/-- The registry effect of `MultiPeerBackend::peer_connected`: insert a fresh
subscriber record with an empty subscription list for the identity (spawning
the receive loop and channel wiring carry no pure state). -/
def peer_connected (b : PubSocketBackend) (p : PeerIdentity) : PubSocketBackend :=
  PubSocketBackend.mk (regInsert b.subscribers p (Subscriber.mk [])) b.socket_monitor

/-- The handler `MultiPeerBackend::peer_disconnected`: log the disconnect and
remove the peer's registry entry.  The function contains no monitor code, so
the monitor queue is returned unchanged. -/
def peer_disconnected (b : PubSocketBackend) (p : PeerIdentity) : PubSocketBackend :=
  PubSocketBackend.mk (regRemove b.subscribers p) b.socket_monitor

/-! Helper lemmas about the registry operations. -/

lemma regLookup_regSetSubs_self (reg : Registry) (p : PeerIdentity) (l : List Bytes)
    (s : Subscriber) (h : regLookup reg p = some s) :
    regLookup (regSetSubs reg p l) p = some (Subscriber.mk l) := by
  induction reg with
  | nil => simp [regLookup] at h
  | cons e rest ih =>
    obtain ⟨q, t⟩ := e
    by_cases hq : q = p
    · subst hq
      simp [regSetSubs, regLookup]
    · simp only [regLookup, if_neg hq] at h
      simp [regSetSubs, regLookup, hq, ih h]

lemma regSetSubs_self (reg : Registry) (p : PeerIdentity) (s0 : List Bytes)
    (h : regLookup reg p = some (Subscriber.mk s0)) : regSetSubs reg p s0 = reg := by
  induction reg with
  | nil => rfl
  | cons e rest ih =>
    obtain ⟨q, t⟩ := e
    by_cases hq : q = p
    · subst hq
      simp [regLookup] at h
      simp [regSetSubs, h]
    · simp only [regLookup, if_neg hq] at h
      simp [regSetSubs, hq, ih h]

lemma regSetSubs_regSetSubs (reg : Registry) (p : PeerIdentity) (l1 l2 : List Bytes) :
    regSetSubs (regSetSubs reg p l1) p l2 = regSetSubs reg p l2 := by
  induction reg with
  | nil => rfl
  | cons e rest ih =>
    obtain ⟨q, t⟩ := e
    by_cases hq : q = p
    · subst hq
      simp [regSetSubs]
    · simp [regSetSubs, hq, ih]

lemma regLookup_of_not_mem_keys (reg : Registry) (p : PeerIdentity)
    (h : p ∉ reg.map Prod.fst) : regLookup reg p = none := by
  induction reg with
  | nil => rfl
  | cons e rest ih =>
    obtain ⟨q, t⟩ := e
    simp only [List.map_cons, List.mem_cons, not_or] at h
    have hq : q ≠ p := fun he => h.1 he.symm
    simp only [regLookup, if_neg hq]
    exact ih h.2

lemma regLookup_regRemove_self (reg : Registry) (p : PeerIdentity)
    (hnd : keysNodup reg) : regLookup (regRemove reg p) p = none := by
  induction reg with
  | nil => rfl
  | cons e rest ih =>
    obtain ⟨q, t⟩ := e
    simp only [keysNodup, List.map_cons, List.nodup_cons] at hnd
    by_cases hq : q = p
    · subst hq
      simp only [regRemove, if_pos rfl]
      exact regLookup_of_not_mem_keys rest q hnd.1
    · simp only [regRemove, if_neg hq, regLookup, if_neg hq]
      exact ih hnd.2

lemma regLookup_regRemove_ne (reg : Registry) (p q : PeerIdentity) (hq : q ≠ p) :
    regLookup (regRemove reg q) p = regLookup reg p := by
  induction reg with
  | nil => rfl
  | cons e rest ih =>
    obtain ⟨r, t⟩ := e
    by_cases hr : r = q
    · subst hr
      simp [regRemove, regLookup, hq]
    · simp only [regRemove, if_neg hr, regLookup]
      by_cases hrp : r = p
      · simp [hrp]
      · simp [hrp, ih]

lemma regLookup_none_regRemove (reg : Registry) (p q : PeerIdentity)
    (h : regLookup reg p = none) : regLookup (regRemove reg q) p = none := by
  induction reg with
  | nil => rfl
  | cons e rest ih =>
    obtain ⟨r, t⟩ := e
    by_cases hrp : r = p
    · simp [regLookup, hrp] at h
    · simp only [regLookup, if_neg hrp] at h
      by_cases hrq : r = q
      · simp [regRemove, hrq, h]
      · simp only [regRemove, if_neg hrq, regLookup, if_neg hrp]
        exact ih h

lemma regRemove_sublist (reg : Registry) (q : PeerIdentity) :
    List.Sublist (regRemove reg q) reg := by
  induction reg with
  | nil => exact List.Sublist.refl _
  | cons e rest ih =>
    obtain ⟨a, b⟩ := e
    by_cases ha : a = q
    · simp only [regRemove, if_pos ha]
      exact List.sublist_cons_self _ _
    · simp only [regRemove, if_neg ha]
      exact List.Sublist.cons₂ _ ih

lemma keysNodup_regRemove (reg : Registry) (q : PeerIdentity)
    (hnd : keysNodup reg) : keysNodup (regRemove reg q) :=
  hnd.sublist (List.Sublist.map Prod.fst (regRemove_sublist reg q))

lemma regLookup_regInsert_self (reg : Registry) (p : PeerIdentity) (s : Subscriber) :
    regLookup (regInsert reg p s) p = some s := by
  induction reg with
  | nil => simp [regInsert, regLookup]
  | cons e rest ih =>
    obtain ⟨q, t⟩ := e
    by_cases hq : q = p
    · simp [regInsert, hq, regLookup]
    · simp [regInsert, hq, regLookup, ih]

lemma regLookup_regInsert_ne (reg : Registry) (p q : PeerIdentity) (s : Subscriber)
    (hq : q ≠ p) : regLookup (regInsert reg p s) q = regLookup reg q := by
  have hpq : p ≠ q := fun h => hq h.symm
  induction reg with
  | nil => simp [regInsert, regLookup, hpq]
  | cons e rest ih =>
    obtain ⟨r, t⟩ := e
    by_cases hr : r = p
    · subst hr
      simp [regInsert, regLookup, hpq]
    · simp only [regInsert, if_neg hr, regLookup]
      by_cases hrq : r = q
      · simp [hrq]
      · simp [hrq, ih]

lemma regInsert_of_absent (reg : Registry) (p : PeerIdentity) (s : Subscriber)
    (h : regLookup reg p = none) : regInsert reg p s = reg ++ [(p, s)] := by
  induction reg with
  | nil => rfl
  | cons e rest ih =>
    obtain ⟨q, t⟩ := e
    by_cases hq : q = p
    · simp [regLookup, hq] at h
    · simp only [regLookup, if_neg hq] at h
      simp [regInsert, hq, ih h]

lemma regLookup_none_not_mem (reg : Registry) (p : PeerIdentity)
    (h : regLookup reg p = none) (s : Subscriber) : (p, s) ∉ reg := by
  induction reg with
  | nil => simp
  | cons e rest ih =>
    obtain ⟨q, t⟩ := e
    by_cases hq : q = p
    · simp [regLookup, hq] at h
    · simp only [regLookup, if_neg hq] at h
      simp only [List.mem_cons, not_or]
      exact ⟨fun he => hq (congrArg Prod.fst he).symm, ih h⟩

/-! Lemmas relating the find-index-then-erase unsubscribe of the code to the
remove-first-equal description. -/

lemma findSubIndex_none_removeFirstEq (t : Bytes) (subs : List Bytes)
    (h : findSubIndex t subs = none) : removeFirstEq t subs = subs := by
  induction subs with
  | nil => rfl
  | cons s rest ih =>
    by_cases hs : t = s
    · simp [findSubIndex, hs] at h
    · simp only [findSubIndex, if_neg hs] at h
      have hs2 : s ≠ t := fun he => hs he.symm
      cases hfi : findSubIndex t rest with
      | none => simp [removeFirstEq, hs2, ih hfi]
      | some i => simp [hfi] at h

lemma findSubIndex_some_removeFirstEq (t : Bytes) (subs : List Bytes) (i : Nat)
    (h : findSubIndex t subs = some i) : subs.eraseIdx i = removeFirstEq t subs := by
  induction subs generalizing i with
  | nil => simp [findSubIndex] at h
  | cons s rest ih =>
    by_cases hs : t = s
    · simp only [findSubIndex, if_pos hs, Option.some.injEq] at h
      subst h
      simp [List.eraseIdx, removeFirstEq, hs.symm]
    · simp only [findSubIndex, if_neg hs] at h
      have hs2 : s ≠ t := fun he => hs he.symm
      cases hfi : findSubIndex t rest with
      | none => simp [hfi] at h
      | some j =>
        simp only [hfi, Option.some.injEq] at h
        subst h
        simp [List.eraseIdx, removeFirstEq, hs2, ih j hfi]

/-- One control frame handled for a peer that is present in the registry acts
exactly as one simulation step on that peer's subscription list. -/
lemma message_received_present (reg : Registry) (p : PeerIdentity) (s0 : List Bytes)
    (d : Bytes) (h : regLookup reg p = some (Subscriber.mk s0)) :
    message_received reg p (Message.message d) =
      some (regSetSubs reg p (simStep s0 d)) := by
  cases d with
  | nil => simp [message_received, simStep, regSetSubs_self reg p s0 h]
  | cons tag topic =>
    by_cases h1 : tag = 1
    · simp [message_received, simStep, h1, h]
    · by_cases h0 : tag = 0
      · simp only [message_received, simStep, h1, h0, if_neg, if_true, if_false, h]
        cases hfi : findSubIndex topic s0 with
        | none =>
          simp [findSubIndex_none_removeFirstEq topic s0 hfi,
            regSetSubs_self reg p s0 h]
        | some i =>
          simp [findSubIndex_some_removeFirstEq topic s0 i hfi]
      · simp [message_received, simStep, h1, h0, regSetSubs_self reg p s0 h]

/-- C4: for every sequence of single-frame control messages from one peer,
starting from any subscription list (the peer being registered), the resulting
registry state carries exactly the subscription list obtained by the claimed
simulation: tag 1 appends the topic unconditionally, tag 0 removes the first
byte-equal entry, any other tag or empty payload leaves the list unchanged. -/
theorem subscription_protocol_matches_simulation (p : PeerIdentity)
    (payloads : List Bytes) :
    ∀ (reg : Registry) (s0 : List Bytes),
      regLookup reg p = some (Subscriber.mk s0) →
      processMessages reg p (payloads.map Message.message) =
        some (regSetSubs reg p (payloads.foldl simStep s0)) := by
  induction payloads with
  | nil =>
    intro reg s0 h
    simp [processMessages, regSetSubs_self reg p s0 h]
  | cons d rest ih =>
    intro reg s0 h
    simp only [List.map_cons, processMessages, message_received_present reg p s0 d h,
      List.foldl_cons]
    have hlook : regLookup (regSetSubs reg p (simStep s0 d)) p =
        some (Subscriber.mk (simStep s0 d)) :=
      regLookup_regSetSubs_self reg p (simStep s0 d) _ h
    rw [ih (regSetSubs reg p (simStep s0 d)) (simStep s0 d) hlook,
      regSetSubs_regSetSubs]

/-- Witness for C4 at a concrete run: subscribe `"a"` twice, then unsubscribe
`"a"` once, starting from subscription list `[[5]]`; scenario 3 of §8. -/
theorem subscription_protocol_matches_simulation_witness :
    processMessages [(0, Subscriber.mk [[5]])] 0
      ([[1, 97], [1, 97], [0, 97]].map Message.message) =
      some (regSetSubs [(0, Subscriber.mk [[5]])] 0
        ([[1, 97], [1, 97], [0, 97]].foldl simStep [[5]])) :=
  subscription_protocol_matches_simulation 0 [[1, 97], [1, 97], [0, 97]]
    [(0, Subscriber.mk [[5]])] [[5]] (by decide)

/-- C1: a subscribe or unsubscribe control frame handled on behalf of a peer
that is no longer in the registry is not a benign no-op: `message_received`
reaches `self.subscribers.get_mut(&peer_id).unwrap()` on `None` and panics
(modelled by `none`), on both the subscribe and the unsubscribe arms. -/
theorem message_received_absent_peer_panics :
    message_received [] 0 (Message.message [1, 97]) = none ∧
    message_received [] 0 (Message.message [0, 97]) = none := by
  exact ⟨rfl, rfl⟩

/-- C2: a peer whose only subscription `"news"` is longer than the published
payload `"x"` does not cause the scan to skip it; instead the slice
`message.data[0..sub_filter.len()]` is out of range and `send` panics
(modelled by `none`) instead of completing without a delivery attempt. -/
theorem send_subscription_longer_than_payload_panics :
    send [(0, Subscriber.mk [[110, 101, 119, 115]])] [120]
      (fun _ => SendResult.ok) = none := by
  exact rfl

/-- C3: a delivery outcome that is neither success nor a codec IO error hits
the `todo!()` arm of `PubSocket::send` and panics (modelled by `none`) instead
of being logged and letting the broadcast complete successfully. -/
theorem send_unclassified_error_panics :
    send [(0, Subscriber.mk [[]])] [120] (fun _ => SendResult.otherErr) = none := by
  exact rfl

/-- C5: a peer holding the zero-length match-everything subscription is not
guaranteed delivery: when an earlier subscription in its list is longer than
the payload, the scan panics on the slice before the empty subscription is
reached, so `send` faults (modelled by `none`) and no delivery happens. -/
theorem send_empty_subscription_after_long_filter_panics :
    send [(7, Subscriber.mk [[97, 98], []])] [120] (fun _ => SendResult.ok) = none := by
  exact rfl

/-! Lemmas about the per-peer scan and the broadcast loop. -/

lemma scanPeer_skip (data : Bytes) (oc : SendResult) (s : Bytes) (rest : List Bytes)
    (hfit : s.length ≤ data.length) (hne : s ≠ data.take s.length) :
    scanPeer data oc (s :: rest) = scanPeer data oc rest := by
  simp only [scanPeer, if_pos hfit, if_neg hne]

lemma scanPeer_attempts_le_one (data : Bytes) (oc : SendResult) (subs : List Bytes)
    (r : Nat × Bool) (h : scanPeer data oc subs = some r) : r.1 ≤ 1 := by
  induction subs with
  | nil =>
    simp only [scanPeer, Option.some.injEq] at h
    subst h
    exact Nat.zero_le 1
  | cons f rest ih =>
    by_cases hfit : f.length ≤ data.length
    · by_cases hm : f = data.take f.length
      · cases oc with
        | ok =>
          simp only [scanPeer, if_pos hfit, if_pos hm, Option.some.injEq] at h
          subst h
          exact Nat.le_refl 1
        | ioErr b =>
          simp only [scanPeer, if_pos hfit, if_pos hm, Option.some.injEq] at h
          subst h
          exact Nat.le_refl 1
        | otherErr =>
          simp [scanPeer, if_pos hfit, if_pos hm] at h
      · rw [scanPeer_skip data oc f rest hfit hm] at h
        exact ih h
    · simp [scanPeer, hfit] at h

lemma scanPeer_dead_iff (data : Bytes) (oc : SendResult) (subs : List Bytes)
    (n : Nat) (d : Bool) (h : scanPeer data oc subs = some (n, d)) :
    d = true ↔ (0 < n ∧ oc = SendResult.ioErr true) := by
  induction subs with
  | nil =>
    simp only [scanPeer, Option.some.injEq, Prod.mk.injEq] at h
    obtain ⟨hn, hd⟩ := h
    subst hn
    subst hd
    simp
  | cons f rest ih =>
    by_cases hfit : f.length ≤ data.length
    · by_cases hm : f = data.take f.length
      · cases oc with
        | ok =>
          simp only [scanPeer, if_pos hfit, if_pos hm, Option.some.injEq,
            Prod.mk.injEq] at h
          obtain ⟨hn, hd⟩ := h
          subst hn
          subst hd
          simp
        | ioErr b =>
          simp only [scanPeer, if_pos hfit, if_pos hm, Option.some.injEq,
            Prod.mk.injEq] at h
          obtain ⟨hn, hd⟩ := h
          subst hn
          subst hd
          simp
        | otherErr =>
          simp [scanPeer, if_pos hfit, if_pos hm] at h
      · rw [scanPeer_skip data oc f rest hfit hm] at h
        exact ih h
    · simp [scanPeer, hfit] at h

lemma sendScan_mem (data : Bytes) (oc : PeerIdentity → SendResult) (reg : Registry)
    (atts deads : List PeerIdentity) (h : sendScan data oc reg = some (atts, deads))
    (p : PeerIdentity) :
    (p ∈ atts ↔ ∃ sub n d, (p, sub) ∈ reg ∧
        scanPeer data (oc p) sub.subscriptions = some (n, d) ∧ 0 < n) ∧
    (p ∈ deads ↔ ∃ sub n, (p, sub) ∈ reg ∧
        scanPeer data (oc p) sub.subscriptions = some (n, true)) := by
  induction reg generalizing atts deads with
  | nil =>
    simp only [sendScan, Option.some.injEq, Prod.mk.injEq] at h
    obtain ⟨h1, h2⟩ := h
    subst h1
    subst h2
    simp
  | cons e rest ih =>
    obtain ⟨q, sub⟩ := e
    simp only [sendScan] at h
    cases hsc : scanPeer data (oc q) sub.subscriptions with
    | none => simp [hsc] at h
    | some r =>
      obtain ⟨n, dead⟩ := r
      cases hrec : sendScan data oc rest with
      | none => simp [hsc, hrec] at h
      | some pr =>
        obtain ⟨atts2, deads2⟩ := pr
        simp only [hsc, hrec, Option.some.injEq, Prod.mk.injEq] at h
        obtain ⟨h1, h2⟩ := h
        subst h1
        subst h2
        obtain ⟨iha, ihd⟩ := ih atts2 deads2 hrec
        constructor
        · by_cases hn : 0 < n
          · rw [if_pos hn]
            constructor
            · intro hp
              rcases List.mem_cons.mp hp with hpq | hp2
              · subst hpq
                exact ⟨sub, n, dead, List.mem_cons_self _ _, hsc, hn⟩
              · obtain ⟨sub2, n2, d2, hm, hs2, hn2⟩ := iha.mp hp2
                exact ⟨sub2, n2, d2, List.mem_cons_of_mem _ hm, hs2, hn2⟩
            · rintro ⟨sub2, n2, d2, hm, hs2, hn2⟩
              rcases List.mem_cons.mp hm with he | hm2
              · exact List.mem_cons.mpr (Or.inl (congrArg Prod.fst he))
              · exact List.mem_cons.mpr (Or.inr (iha.mpr ⟨sub2, n2, d2, hm2, hs2, hn2⟩))
          · rw [if_neg hn]
            constructor
            · intro hp
              obtain ⟨sub2, n2, d2, hm, hs2, hn2⟩ := iha.mp hp
              exact ⟨sub2, n2, d2, List.mem_cons_of_mem _ hm, hs2, hn2⟩
            · rintro ⟨sub2, n2, d2, hm, hs2, hn2⟩
              rcases List.mem_cons.mp hm with he | hm2
              · exfalso
                have hpq : p = q := congrArg Prod.fst he
                have hsub : sub2 = sub := congrArg Prod.snd he
                rw [hpq, hsub, hsc] at hs2
                simp only [Option.some.injEq, Prod.mk.injEq] at hs2
                exact hn (hs2.1 ▸ hn2)
              · exact iha.mpr ⟨sub2, n2, d2, hm2, hs2, hn2⟩
        · cases dead with
          | true =>
            rw [if_pos rfl]
            constructor
            · intro hp
              rcases List.mem_cons.mp hp with hpq | hp2
              · subst hpq
                exact ⟨sub, n, List.mem_cons_self _ _, hsc⟩
              · obtain ⟨sub2, n2, hm, hs2⟩ := ihd.mp hp2
                exact ⟨sub2, n2, List.mem_cons_of_mem _ hm, hs2⟩
            · rintro ⟨sub2, n2, hm, hs2⟩
              rcases List.mem_cons.mp hm with he | hm2
              · exact List.mem_cons.mpr (Or.inl (congrArg Prod.fst he))
              · exact List.mem_cons.mpr (Or.inr (ihd.mpr ⟨sub2, n2, hm2, hs2⟩))
          | false =>
            rw [if_neg (by decide : ¬ (false = true))]
            constructor
            · intro hp
              obtain ⟨sub2, n2, hm, hs2⟩ := ihd.mp hp
              exact ⟨sub2, n2, List.mem_cons_of_mem _ hm, hs2⟩
            · rintro ⟨sub2, n2, hm, hs2⟩
              rcases List.mem_cons.mp hm with he | hm2
              · exfalso
                have hpq : p = q := congrArg Prod.fst he
                have hsub : sub2 = sub := congrArg Prod.snd he
                rw [hpq, hsub, hsc] at hs2
                simp at hs2
              · exact ihd.mpr ⟨sub2, n2, hm2, hs2⟩

lemma sendScan_sublist (data : Bytes) (oc : PeerIdentity → SendResult) (reg : Registry)
    (atts deads : List PeerIdentity) (h : sendScan data oc reg = some (atts, deads)) :
    List.Sublist atts (reg.map Prod.fst) ∧ List.Sublist deads (reg.map Prod.fst) := by
  induction reg generalizing atts deads with
  | nil =>
    simp only [sendScan, Option.some.injEq, Prod.mk.injEq] at h
    obtain ⟨h1, h2⟩ := h
    subst h1
    subst h2
    simp
  | cons e rest ih =>
    obtain ⟨q, sub⟩ := e
    simp only [sendScan] at h
    cases hsc : scanPeer data (oc q) sub.subscriptions with
    | none => simp [hsc] at h
    | some r =>
      obtain ⟨n, dead⟩ := r
      cases hrec : sendScan data oc rest with
      | none => simp [hsc, hrec] at h
      | some pr =>
        obtain ⟨atts2, deads2⟩ := pr
        simp only [hsc, hrec, Option.some.injEq, Prod.mk.injEq] at h
        obtain ⟨h1, h2⟩ := h
        subst h1
        subst h2
        obtain ⟨iha, ihd⟩ := ih atts2 deads2 hrec
        constructor
        · by_cases hn : 0 < n
          · simpa [if_pos hn] using List.Sublist.cons₂ q iha
          · simpa [if_neg hn] using List.Sublist.cons q iha
        · cases dead with
          | true => simpa using List.Sublist.cons₂ q ihd
          | false => simpa using List.Sublist.cons q ihd

lemma foldl_regRemove_none (ds : List PeerIdentity) (reg : Registry) (p : PeerIdentity)
    (h : regLookup reg p = none) : regLookup (ds.foldl regRemove reg) p = none := by
  induction ds generalizing reg with
  | nil => exact h
  | cons d ds ih => exact ih _ (regLookup_none_regRemove reg p d h)

lemma foldl_regRemove_mem (ds : List PeerIdentity) (reg : Registry) (p : PeerIdentity)
    (hnd : keysNodup reg) (hp : p ∈ ds) : regLookup (ds.foldl regRemove reg) p = none := by
  induction ds generalizing reg with
  | nil => cases hp
  | cons d ds ih =>
    by_cases hd : p = d
    · subst hd
      exact foldl_regRemove_none ds _ p (regLookup_regRemove_self reg p hnd)
    · have hp2 : p ∈ ds := by
        rcases List.mem_cons.mp hp with he | hm
        · exact absurd he hd
        · exact hm
      exact ih _ (keysNodup_regRemove reg d hnd) hp2

lemma foldl_regRemove_not_mem (ds : List PeerIdentity) (reg : Registry)
    (p : PeerIdentity) (hp : p ∉ ds) :
    regLookup (ds.foldl regRemove reg) p = regLookup reg p := by
  induction ds generalizing reg with
  | nil => rfl
  | cons d ds ih =>
    have hd : d ≠ p := fun he => hp (by simp [he])
    have hp2 : p ∉ ds := fun hm => hp (List.mem_cons_of_mem _ hm)
    rw [List.foldl_cons, ih _ hp2, regLookup_regRemove_ne reg p d hd]

lemma scanPeer_stops_at_first (data : Bytes) (ocp : SendResult) (f : Bytes)
    (l2 : List Bytes) (h2 : f.length ≤ data.length) (h3 : f = data.take f.length) :
    ∀ l1 : List Bytes, (∀ s ∈ l1, s.length ≤ data.length ∧ s ≠ data.take s.length) →
      scanPeer data ocp (l1 ++ f :: l2) = scanPeer data ocp [f]
  | [], _ => by
    simp only [List.nil_append]
    simp only [scanPeer, if_pos h2, if_pos h3]
  | s :: rest, h1 => by
    have hs := h1 s (List.mem_cons_self s rest)
    rw [List.cons_append, scanPeer_skip data ocp s _ hs.1 hs.2]
    exact scanPeer_stops_at_first data ocp f l2 h2 h3 rest
      (fun x hx => h1 x (List.mem_cons_of_mem s hx))

/-- C6: at most one delivery attempt per peer per publish call.  When a peer's
subscription list is any earlier non-matching (but in-range) filters followed
by a matching filter `f` and an arbitrary tail, the scan result is that of the
list `[f]` alone — scanning stops at the first match and the tail (however many
further matches it holds) is never consulted; every completed per-peer scan
makes at most one delivery attempt; and across one completed `send`, a peer
identity occurs at most once in the attempted list. -/
theorem send_at_most_one_delivery_per_peer (data : Bytes) (ocp : SendResult)
    (l1 : List Bytes) (f : Bytes) (l2 : List Bytes)
    (h1 : ∀ s ∈ l1, s.length ≤ data.length ∧ s ≠ data.take s.length)
    (h2 : f.length ≤ data.length) (h3 : f = data.take f.length) :
    scanPeer data ocp (l1 ++ f :: l2) = scanPeer data ocp [f] ∧
    (∀ subs r, scanPeer data ocp subs = some r → r.1 ≤ 1) ∧
    (∀ (oc : PeerIdentity → SendResult) (reg : Registry) (out : SendOutcome),
      keysNodup reg → send reg data oc = some out → out.attempted.Nodup) := by
  refine ⟨scanPeer_stops_at_first data ocp f l2 h2 h3 l1 h1,
    fun subs r hr => scanPeer_attempts_le_one data ocp subs r hr, ?_⟩
  intro oc reg out hnd hsend
  unfold send at hsend
  cases hsc : sendScan data oc reg with
  | none => rw [hsc] at hsend; cases hsend
  | some pr =>
    obtain ⟨atts, deads⟩ := pr
    rw [hsc] at hsend
    simp only [Option.some.injEq] at hsend
    subst hsend
    exact hnd.sublist (sendScan_sublist data oc reg atts deads hsc).1

/-- Witness for C6: payload `"ab"`, one earlier non-matching filter `"c"`, the
matching filter `"a"`, and two further filters after it that are ignored. -/
theorem send_at_most_one_delivery_per_peer_witness :
    scanPeer [97, 98] SendResult.ok ([[99]] ++ [97] :: [[97], [98]]) =
      scanPeer [97, 98] SendResult.ok [[97]] :=
  (send_at_most_one_delivery_per_peer [97, 98] SendResult.ok [[99]] [97] [[97], [98]]
    (by decide) (by decide) (by decide)).1

/-- C7: in a completed `send`, the recorded dead peers are exactly the peers
whose delivery attempt reported a broken pipe; every one of them is gone from
the registry that `send` hands back, and the entry of every other peer is
exactly as it was in the pre-scan registry (removal is deferred until after
the scan and performed before `send` returns). -/
theorem send_removes_dead_peers_after_scan (reg : Registry) (data : Bytes)
    (oc : PeerIdentity → SendResult) (out : SendOutcome)
    (hnd : keysNodup reg) (h : send reg data oc = some out) :
    (∀ p, p ∈ out.dead ↔ (p ∈ out.attempted ∧ oc p = SendResult.ioErr true)) ∧
    (∀ p, p ∈ out.dead → regLookup out.registry p = none) ∧
    (∀ p, p ∉ out.dead → regLookup out.registry p = regLookup reg p) := by
  unfold send at h
  cases hsc : sendScan data oc reg with
  | none => rw [hsc] at h; cases h
  | some pr =>
    obtain ⟨atts, deads⟩ := pr
    rw [hsc] at h
    simp only [Option.some.injEq] at h
    subst h
    refine ⟨?_, ?_, ?_⟩
    · intro p
      obtain ⟨iha, ihd⟩ := sendScan_mem data oc reg atts deads hsc p
      constructor
      · intro hp
        obtain ⟨sub, n, hm, hs⟩ := ihd.mp hp
        obtain ⟨hn, hoc⟩ := (scanPeer_dead_iff data (oc p) sub.subscriptions n true hs).mp rfl
        exact ⟨iha.mpr ⟨sub, n, true, hm, hs, hn⟩, hoc⟩
      · rintro ⟨hp, hoc⟩
        obtain ⟨sub, n, d, hm, hs, hn⟩ := iha.mp hp
        have hd : d = true := (scanPeer_dead_iff data (oc p) sub.subscriptions n d hs).mpr ⟨hn, hoc⟩
        subst hd
        exact ihd.mpr ⟨sub, n, hm, hs⟩
    · intro p hp
      exact foldl_regRemove_mem deads reg p hnd hp
    · intro p hp
      exact foldl_regRemove_not_mem deads reg p hp

/-- Witness for C7: two peers subscribed to everything; peer 0's queue reports
a broken pipe, peer 1's delivery succeeds.  After `send`, peer 0 is gone from
the registry and peer 1's entry is untouched. -/
theorem send_removes_dead_peers_after_scan_witness :
    regLookup [(1, Subscriber.mk [[]])] 0 = none ∧
    regLookup [(1, Subscriber.mk [[]])] 1 =
      regLookup [(0, Subscriber.mk [[]]), (1, Subscriber.mk [[]])] 1 := by
  have h := send_removes_dead_peers_after_scan
    [(0, Subscriber.mk [[]]), (1, Subscriber.mk [[]])] [5]
    (fun p => if p = 0 then SendResult.ioErr true else SendResult.ok)
    (SendOutcome.mk [(1, Subscriber.mk [[]])] [0, 1] [0])
    (by decide) (by decide)
  exact ⟨h.2.1 0 (by decide), h.2.2 1 (by decide)⟩

/-- C10: a newly connected peer gets a subscriber record with an empty
subscription list, and a completed `send` issued before that peer has sent any
subscribe frame makes no delivery attempt to it. -/
theorem fresh_peer_receives_nothing (b : PubSocketBackend) (p : PeerIdentity)
    (data : Bytes) (oc : PeerIdentity → SendResult) (out : SendOutcome)
    (hfresh : regLookup b.subscribers p = none)
    (hsend : send (peer_connected b p).subscribers data oc = some out) :
    regLookup (peer_connected b p).subscribers p = some (Subscriber.mk []) ∧
    p ∉ out.attempted := by
  refine ⟨regLookup_regInsert_self b.subscribers p (Subscriber.mk []), ?_⟩
  have hins : (peer_connected b p).subscribers =
      b.subscribers ++ [(p, Subscriber.mk [])] :=
    regInsert_of_absent b.subscribers p (Subscriber.mk []) hfresh
  rw [hins] at hsend
  unfold send at hsend
  cases hsc : sendScan data oc (b.subscribers ++ [(p, Subscriber.mk [])]) with
  | none => rw [hsc] at hsend; cases hsend
  | some pr =>
    obtain ⟨atts, deads⟩ := pr
    rw [hsc] at hsend
    simp only [Option.some.injEq] at hsend
    subst hsend
    intro hp
    obtain ⟨iha, _⟩ := sendScan_mem data oc _ atts deads hsc p
    obtain ⟨sub, n, d, hm, hs, hn⟩ := iha.mp hp
    rcases List.mem_append.mp hm with hm1 | hm2
    · exact regLookup_none_not_mem b.subscribers p hfresh sub hm1
    · have hsub : sub = Subscriber.mk [] :=
        congrArg Prod.snd (List.mem_singleton.mp hm2)
      subst hsub
      simp only [scanPeer, Option.some.injEq, Prod.mk.injEq] at hs
      omega

/-- Witness for C10: connect peer 3 to an empty socket, then publish `[9]`. -/
theorem fresh_peer_receives_nothing_witness :
    regLookup (peer_connected (PubSocketBackend.mk [] none) 3).subscribers 3 =
      some (Subscriber.mk []) ∧
    3 ∉ (SendOutcome.mk [(3, Subscriber.mk [])] [] []).attempted :=
  fresh_peer_receives_nothing (PubSocketBackend.mk [] none) 3 [9]
    (fun _ => SendResult.ok) (SendOutcome.mk [(3, Subscriber.mk [])] [] [])
    (by decide) (by decide)

/-- Counterexample to C8 as stated: with a monitor attached (an empty event
queue `some []`) and peer 0 registered, `peer_disconnected` removes the peer
but the monitor queue comes back exactly as it was — no peer-disconnected
event is emitted, because `PubSocketBackend::peer_disconnected` only logs and
removes the registry entry. -/
theorem peer_disconnected_no_event_cex :
    peer_disconnected (PubSocketBackend.mk [(0, Subscriber.mk [])] (some [])) 0 =
      PubSocketBackend.mk [] (some []) ∧
    PubSocketBackend.mk [] (some ([] : List SocketEvent)) ≠
      PubSocketBackend.mk [] (some [SocketEvent.disconnected 0]) := by
  decide

/-- C8 amended: peer removal through `peer_disconnected` removes the
subscriber record from the registry, and no socket event is emitted — the
monitor channel state is returned unchanged even when a monitor is attached. -/
theorem peer_disconnected_removes_without_event (b : PubSocketBackend)
    (p : PeerIdentity) (hnd : keysNodup b.subscribers) :
    regLookup (peer_disconnected b p).subscribers p = none ∧
    (peer_disconnected b p).socket_monitor = b.socket_monitor :=
  ⟨regLookup_regRemove_self b.subscribers p hnd, rfl⟩

/-- Witness for the amended C8 at a concrete backend with a monitor attached. -/
theorem peer_disconnected_removes_without_event_witness :
    regLookup (peer_disconnected
      (PubSocketBackend.mk [(0, Subscriber.mk [])] (some [])) 0).subscribers 0 = none ∧
    (peer_disconnected
      (PubSocketBackend.mk [(0, Subscriber.mk [])] (some [])) 0).socket_monitor =
      some [] :=
  peer_disconnected_removes_without_event
    (PubSocketBackend.mk [(0, Subscriber.mk [])] (some [])) 0 (by decide)

/-- Counterexample to C9 as stated: identity 0 is already registered with one
subscription, yet `peer_connected` for the same identity completes normally —
its signature has no error outcome at all — and silently replaces the existing
subscriber record with a fresh empty one. -/
theorem duplicate_registration_overwrites_cex :
    regLookup [(0, Subscriber.mk [[1]])] 0 = some (Subscriber.mk [[1]]) ∧
    peer_connected (PubSocketBackend.mk [(0, Subscriber.mk [[1]])] none) 0 =
      PubSocketBackend.mk [(0, Subscriber.mk [])] none := by
  decide

/-- C9 amended: registering an identity that is already present is not
rejected; `peer_connected` silently overwrites the existing record with a
fresh empty-subscription record, leaves every other peer's entry unchanged,
and surfaces nothing (no error channel exists in its signature). -/
theorem peer_connected_overwrites_silently (b : PubSocketBackend)
    (p : PeerIdentity) (s : Subscriber)
    (h : regLookup b.subscribers p = some s) :
    regLookup (peer_connected b p).subscribers p = some (Subscriber.mk []) ∧
    (∀ q, q = p ∨
      regLookup (peer_connected b p).subscribers q = regLookup b.subscribers q) ∧
    (peer_connected b p).socket_monitor = b.socket_monitor := by
  refine ⟨regLookup_regInsert_self b.subscribers p (Subscriber.mk []), ?_, rfl⟩
  intro q
  by_cases hq : q = p
  · exact Or.inl hq
  · exact Or.inr (regLookup_regInsert_ne b.subscribers p q (Subscriber.mk []) hq)

/-- Witness for the amended C9: re-register identity 2, which already holds a
subscription; its record is reset and nothing is surfaced. -/
theorem peer_connected_overwrites_silently_witness :
    regLookup (peer_connected
      (PubSocketBackend.mk [(2, Subscriber.mk [[7]])] none) 2).subscribers 2 =
      some (Subscriber.mk []) ∧
    (peer_connected
      (PubSocketBackend.mk [(2, Subscriber.mk [[7]])] none) 2).socket_monitor =
      none := by
  have h := peer_connected_overwrites_silently
    (PubSocketBackend.mk [(2, Subscriber.mk [[7]])] none) 2
    (Subscriber.mk [[7]]) (by decide)
  exact ⟨h.1, h.2.2⟩
